import Mathlib

/-!
Verification of the update orchestration engine of `nf_core/components/update.py`
(`ComponentUpdate`). Python code is shallowly embedded: dictionaries become
association lists, exceptions become an `Except PyErr` result, collaborator
calls (registry, prompts, filesystem) become explicit function parameters, and
the filesystem / persisted-state effects of a run are tracked in explicit
state records.
-/

namespace NfCoreUpdate

/-- Python exception tokens relevant to the update engine. In Python,
`IndexError` and `KeyError` are subclasses of `LookupError`; `userWarning`
models the `UserWarning` raised for fatal configuration problems. -/
inductive PyErr where
  | typeError
  | indexError
  | keyError (k : String)
  | attributeError
  | lookupError (msg : String)
  | userWarning (msg : String)
  deriving Repr, DecidableEq

/-- Python exception-class test: `isinstance(e, LookupError)`. `IndexError`
and `KeyError` are `LookupError` subclasses in Python's builtin hierarchy. -/
def PyErr.isLookupError : PyErr → Bool
  | .lookupError _ => true
  | .indexError => true
  | .keyError _ => true
  | _ => false

/-- A value of the `.nf-core.yml` `update:` configuration tree: booleans,
commit-sha strings, nested mappings, or anything else (`other`, e.g. an int).
Absence of a key is modelled by a failed lookup, not by a constructor. -/
inductive CfgEntry where
  | true_
  | false_
  | sha (s : String)
  | dict (m : List (String × CfgEntry))
  | other

/-- First-match association-list lookup, the embedding of Python `d[k]` /
`d.get(k)` on string-keyed dictionaries. -/
def lookupKV {α : Type} : List (String × α) → String → Option α
  | [], _ => none
  | (k, v) :: rest, key => if k = key then some v else lookupKV rest key

/-- Python `d[k] = v` on a string-keyed dictionary: replace the binding if the
key exists, otherwise append it. -/
def setKV {α : Type} : List (String × α) → String → α → List (String × α)
  | [], key, v => [(key, v)]
  | (k, w) :: rest, key, v =>
      if k = key then (key, v) :: rest else (k, w) :: setKV rest key v

/-- Python `k in d` for a string-keyed dictionary. -/
def containsKey {α : Type} (m : List (String × α)) (k : String) : Bool :=
  (lookupKV m k).isSome

/-- Python substring containment `sub in s` on strings. -/
def strContains (s sub : String) : Bool :=
  if sub = "" then true else decide (2 ≤ (s.splitOn sub).length)

/-- Python `x.get(k, default_dict)` on a configuration value: only a dict has
a `get` attribute; any other shape raises `AttributeError`. -/
def cfgGetD (e : CfgEntry) (k : String) : Except PyErr CfgEntry :=
  match e with
  | .dict m => .ok ((lookupKV m k).getD (.dict []))
  | _ => .error .attributeError

/-- Python `x.get(k)` (default `None`) on a configuration value; non-dict
receivers raise `AttributeError`. -/
def cfgGet (e : CfgEntry) (k : String) : Except PyErr (Option CfgEntry) :=
  match e with
  | .dict m => .ok (lookupKV m k)
  | _ => .error .attributeError

/-- Python `x[k]` on a configuration value: a dict indexes with `KeyError` on
absence; a string or bool indexed by a string raises `TypeError`. -/
def cfgIndex (e : CfgEntry) (k : String) : Except PyErr CfgEntry :=
  match e with
  | .dict m =>
      match lookupKV m k with
      | some v => .ok v
      | none => .error (.keyError k)
  | _ => .error .typeError

/-- Python `component in x` on a configuration value: key membership for a
dict, substring test for a string, `TypeError` for a bool or other shape. -/
def cfgMember (k : String) (e : CfgEntry) : Except PyErr Bool :=
  match e with
  | .dict m => .ok (containsKey m k)
  | .sha s => .ok (strContains s k)
  | _ => .error .typeError

/-- Python `d[k]` on a top-level string-keyed dictionary (`KeyError` on a
missing key). -/
def dictIndex {α : Type} (m : List (String × α)) (k : String) : Except PyErr α :=
  match lookupKV m k with
  | some v => .ok v
  | none => .error (.keyError k)

/-- Result of `ComponentUpdate.get_single_component_info`: the chosen
component, the resolved sha (still `none` when the prompt or the registry
latest version decides later), the recorded patch filename, the branch the
shared `ModulesRepo` is left on, and whether the precedence-override warning
(config entry beats `--sha`) was logged. -/
structure SingleInfo where
  component : String
  sha : Option String
  patchFn : Option String
  branch : String
  overrideWarned : Bool
  deriving Repr, DecidableEq

/-- Embedding of update.py lines 314-336: starting from the CLI `--sha`, look
up the `.nf-core.yml` entry for the component via
`update_config.get(remote_url, {}).get(install_dir, {})`; `False` and
non-string non-bool entries raise `UserWarning`; a string entry overrides the
CLI sha, logging the override warning when a CLI sha was also given. -/
def singleShaFromConfig (updateConfig : List (String × CfgEntry))
    (repoUrl installDir component : String) (cliSha : Option String) :
    Except PyErr (Option String × Bool) :=
  let outer := (lookupKV updateConfig repoUrl).getD (.dict [])
  match cfgGetD outer installDir with
  | .error e => .error e
  | .ok inner =>
    match cfgMember component inner with
    | .error e => .error e
    | .ok false => .ok (cliSha, false)
    | .ok true =>
      match dictIndex updateConfig repoUrl with
      | .error e => .error e
      | .ok outerVal =>
        match cfgIndex outerVal installDir with
        | .error e => .error e
        | .ok innerVal =>
          match cfgGet innerVal component with
          | .error e => .error e
          | .ok configEntry =>
            match configEntry with
            | none => .ok (cliSha, false)
            | some .true_ => .ok (cliSha, false)
            | some .false_ =>
                .error (.userWarning "update entry in .nf-core.yml is set to False")
            | some (.sha s) => .ok (some s, cliSha.isSome)
            | some (.dict _) =>
                .error (.userWarning "update entry in .nf-core.yml is of wrong type")
            | some .other =>
                .error (.userWarning "update entry in .nf-core.yml is of wrong type")

/-- Embedding of `ComponentUpdate.get_single_component_info` (update.py lines
267-356). Collaborators become parameters: `allComponents` is
`modules_json.get_all_components(component_type)`, `promptChoice` the answer
of the `questionary.autocomplete` prompt, `avail` the registry catalog,
`switchConfirm` the answer of the branch-switch prompt, `patchFn` the value of
`modules_json.get_patch_fn`. Faithful to the source order: the `choices`
comprehension iterates `components` (Python `TypeError` when the repo has no
entry) before the repo-presence `LookupError` check; the `install_dir` lookup
indexes `[0]` (Python `IndexError` on an empty match) before the
`component not in choices` check. -/
def getSingleComponentInfo (repoUrl : String)
    (allComponents : List (String × List (String × String)))
    (componentArg : Option String) (promptChoice : String)
    (avail : List String) (updateConfig : List (String × CfgEntry))
    (cliSha : Option String) (currentBranch newBranch : String)
    (switchConfirm : Bool) (patchFn : Option String) : Except PyErr SingleInfo :=
  match lookupKV allComponents repoUrl with
  | none => .error .typeError
  | some components =>
    let choices := components.map (fun dc => if dc.1 = "nf-core" then dc.2 else dc.1 ++ "/" ++ dc.2)
    if ¬ containsKey allComponents repoUrl then
      .error (.lookupError ("No components installed from " ++ repoUrl))
    else
      let component := componentArg.getD promptChoice
      match (components.filter (fun dc => dc.2 = component)).map (fun dc => dc.1) with
      | [] => .error .indexError
      | installDir :: _ =>
        if ¬ choices.contains component then
          .error (.lookupError (component ++ " is not installed in pipeline and could therefore not be updated"))
        else if component ≠ "" ∧ ¬ avail.contains component then
          .error (.lookupError (component ++ " not found in list of available components"))
        else
          match singleShaFromConfig updateConfig repoUrl installDir component cliSha with
          | .error e => .error e
          | .ok shaWarned =>
            let branchEff := if currentBranch ≠ newBranch ∧ switchConfirm then currentBranch else newBranch
            .ok ⟨component, shaWarned.1, patchFn, branchEff, shaWarned.2⟩

/-- Embedding of update.py lines 157-164: the resolved target version is the
plan-entry sha when present, else the interactive prompt answer when `prompt`
is set, else the registry latest version. -/
def resolveVersion (sha : Option String) (prompt : Bool)
    (promptVersion latest : String) : String :=
  match sha with
  | some s => s
  | none => if prompt then promptVersion else latest

/-- One bulk-path plan entry: component name, sha to update to (`none` means
CLI-absent, i.e. prompt/latest decides later), and install branch. -/
abbrev CompEntry := String × Option String × String

/-- The `components_info` nested dictionary of the bulk path:
repo url → install directory → list of entries. -/
abbrev CompInfo := List (String × List (String × List CompEntry))

/-- Accumulated state of the bulk resolution loop (update.py lines 374-378):
the nested `components_info` dictionary and the four aggregation lists. -/
structure BulkState where
  info : CompInfo
  skippedRepos : List String
  skippedComponents : List String
  overriddenRepos : List String
  overriddenComponents : List String
  deriving Repr

/-- Embedding of the repeated `try: components_info[repo][dir].append(x)
except KeyError: components_info[repo][dir] = [x]` idiom: a missing repo key
raises `KeyError` from the handler itself; a missing directory key creates a
fresh singleton list. -/
def appendEntry (info : CompInfo) (repo dir : String) (e : CompEntry) :
    Except PyErr CompInfo :=
  match lookupKV info repo with
  | none => .error (.keyError repo)
  | some dirs =>
    match lookupKV dirs dir with
    | some es => .ok (setKV info repo (setKV dirs dir (es ++ [e])))
    | none => .ok (setKV info repo (setKV dirs dir [e]))

/-- Sequentially append a list of (directory, component, sha) triples for one
repo, looking up each install branch via `branchOf` (the embedding of
`modules_json.get_component_branch`). -/
def appendLoop (repo : String) (branchOf : String → String → String → String) :
    List (String × String × Option String) → CompInfo → Except PyErr CompInfo
  | [], info => .ok info
  | (dir, comp, sha) :: rest, info =>
    match appendEntry info repo dir (comp, sha, branchOf comp repo dir) with
    | .error e => .error e
    | .ok info2 => appendLoop repo branchOf rest info2

/-- Rendering of a Python list of `(dir, component)` tuples inside an f-string,
used by the line-440 slip `f"{component_dir}/{components}"` which interpolates
the whole component list instead of the single component name. -/
def pyReprComponents (cs : List (String × String)) : String :=
  "[" ++ String.intercalate ", " (cs.map (fun p => "(" ++ p.1 ++ ", " ++ p.2 ++ ")")) ++ "]"

/-- First-occurrence deduplication helper for the Python
`set([dir for dir, _ in components])` iteration. -/
def dedupFirstAux : List String → List String → List String
  | [], _ => []
  | x :: xs, seen =>
    if seen.contains x then dedupFirstAux xs seen else x :: dedupFirstAux xs (x :: seen)

/-- Distinct install directories of one repo, in first-appearance order. -/
def dedupFirst (l : List String) : List String := dedupFirstAux l []

/-- Embedding of the component-level loop of the nested-dict branch
(update.py lines 445-498). Faithful to the source slip: the Python loop
variable `component_dir` is shadowed, so the loop runs over every
(dir, component) pair of the whole repo, not only the current directory.
Entries absent or `True` update with the CLI sha; a string pins (recording an
override when a CLI sha exists); `False` skips; any other shape raises a
`UserWarning` naming component and directory. -/
def dirConfigComponentsLoop (repo : String) (cliSha : Option String)
    (branchOf : String → String → String → String)
    (dirConfig : List (String × CfgEntry)) :
    List (String × String) → BulkState → Except PyErr BulkState
  | [], st => .ok st
  | (dir2, comp) :: rest, st =>
    match lookupKV dirConfig comp with
    | none =>
      match appendEntry st.info repo dir2 (comp, cliSha, branchOf comp repo dir2) with
      | .error e => .error e
      | .ok info2 => dirConfigComponentsLoop repo cliSha branchOf dirConfig rest { st with info := info2 }
    | some .true_ =>
      match appendEntry st.info repo dir2 (comp, cliSha, branchOf comp repo dir2) with
      | .error e => .error e
      | .ok info2 => dirConfigComponentsLoop repo cliSha branchOf dirConfig rest { st with info := info2 }
    | some (.sha s) =>
      match appendEntry st.info repo dir2 (comp, some s, branchOf comp repo dir2) with
      | .error e => .error e
      | .ok info2 =>
        match cliSha with
        | some _ =>
          dirConfigComponentsLoop repo cliSha branchOf dirConfig rest
            { st with info := info2,
                      overriddenComponents := st.overriddenComponents ++ [comp] }
        | none =>
          dirConfigComponentsLoop repo cliSha branchOf dirConfig rest { st with info := info2 }
    | some .false_ =>
      dirConfigComponentsLoop repo cliSha branchOf dirConfig rest
        { st with skippedComponents := st.skippedComponents ++ [dir2 ++ "/" ++ comp] }
    | some (.dict _) =>
      .error (.userWarning (comp ++ " in " ++ dir2 ++ " has an invalid entry in .nf-core.yml"))
    | some .other =>
      .error (.userWarning (comp ++ " in " ++ dir2 ++ " has an invalid entry in .nf-core.yml"))

/-- Embedding of one iteration of the directory loop of the nested-dict
branch (update.py lines 408-498). Faithful to the source: a directory absent
from the repo dict raises `KeyError`; a string pins all components of that
directory (resetting the repo slot of `components_info` first, line 412); a
`False` records one skip line per matching component, each interpolating the
whole component list (line 440); a nested dict resets the repo slot and runs
the shadowed component loop; a `True` or any other shape falls through the
`if/elif` chain with no `else`, silently doing nothing. -/
def processDictDir (repo : String) (cliSha : Option String)
    (branchOf : String → String → String → String)
    (components : List (String × String)) (cfg : List (String × CfgEntry))
    (st : BulkState) (componentDir : String) : Except PyErr BulkState :=
  match lookupKV cfg componentDir with
  | none => .error (.keyError componentDir)
  | some (.sha customSha) =>
    match appendLoop repo branchOf
        (components.filterMap (fun dc =>
          if componentDir = dc.1 then some (componentDir, dc.2, some customSha) else none))
        (setKV st.info repo []) with
    | .error e => .error e
    | .ok info2 =>
      match cliSha with
      | some _ =>
        .ok { st with info := info2, overriddenRepos := st.overriddenRepos ++ [repo] }
      | none => .ok { st with info := info2 }
  | some .false_ =>
    let skips := (components.filter (fun dc => dc.1 = componentDir)).map
      (fun _ => componentDir ++ "/" ++ pyReprComponents components)
    .ok { st with skippedComponents := st.skippedComponents ++ skips }
  | some (.dict dirConfig) =>
    dirConfigComponentsLoop repo cliSha branchOf dirConfig components
      { st with info := setKV st.info repo [] }
  | some .true_ => .ok st
  | some .other => .ok st

/-- The directory loop of the nested-dict branch, over the distinct install
directories of the repo. -/
def processDictDirs (repo : String) (cliSha : Option String)
    (branchOf : String → String → String → String)
    (components : List (String × String)) (cfg : List (String × CfgEntry)) :
    List String → BulkState → Except PyErr BulkState
  | [], st => .ok st
  | d :: ds, st =>
    match processDictDir repo cliSha branchOf components cfg st d with
    | .error e => .error e
    | .ok st2 => processDictDirs repo cliSha branchOf components cfg ds st2

/-- Embedding of one iteration of the bulk repo loop (update.py lines
381-529): dispatch on the shape of the repo-level `.nf-core.yml` entry.
Absent or `True` updates every component with the CLI sha; a dict runs the
per-directory resolution; a string pins the whole repo (recording an override
when a CLI sha exists); `False` records one skipped repo; any other shape
raises a `UserWarning` naming the repo. -/
def processRepo (updateConfig : List (String × CfgEntry)) (cliSha : Option String)
    (branchOf : String → String → String → String) (st : BulkState)
    (repo : String) (components : List (String × String)) : Except PyErr BulkState :=
  match lookupKV updateConfig repo with
  | none =>
    match appendLoop repo branchOf (components.map (fun dc => (dc.1, dc.2, cliSha)))
        (setKV st.info repo []) with
    | .error e => .error e
    | .ok info2 => .ok { st with info := info2 }
  | some .true_ =>
    match appendLoop repo branchOf (components.map (fun dc => (dc.1, dc.2, cliSha)))
        (setKV st.info repo []) with
    | .error e => .error e
    | .ok info2 => .ok { st with info := info2 }
  | some (.dict cfg) =>
    processDictDirs repo cliSha branchOf components cfg
      (dedupFirst (components.map Prod.fst)) st
  | some (.sha customSha) =>
    match appendLoop repo branchOf (components.map (fun dc => (dc.1, dc.2, some customSha)))
        (setKV st.info repo []) with
    | .error e => .error e
    | .ok info2 =>
      match cliSha with
      | some _ =>
        .ok { st with info := info2, overriddenRepos := st.overriddenRepos ++ [repo] }
      | none => .ok { st with info := info2 }
  | some .false_ => .ok { st with skippedRepos := st.skippedRepos ++ [repo] }
  | some .other =>
    .error (.userWarning ("Repo " ++ repo ++ " has an invalid entry in .nf-core.yml"))

/-- The bulk repo loop over `modules_json.get_all_components(...).items()`. -/
def processRepos (updateConfig : List (String × CfgEntry)) (cliSha : Option String)
    (branchOf : String → String → String → String) :
    List (String × List (String × String)) → BulkState → Except PyErr BulkState
  | [], st => .ok st
  | (repo, components) :: rest, st =>
    match processRepo updateConfig cliSha branchOf st repo components with
    | .error e => .error e
    | .ok st2 => processRepos updateConfig cliSha branchOf rest st2

/-- Embedding of the resolution phase of
`ComponentUpdate.get_all_components_info` (update.py lines 374-529), from an
empty accumulated state. -/
def getAllComponentsInfoResolve (allComponents : List (String × List (String × String)))
    (updateConfig : List (String × CfgEntry)) (cliSha : Option String)
    (branchOf : String → String → String → String) : Except PyErr BulkState :=
  processRepos updateConfig cliSha branchOf allComponents ⟨[], [], [], [], []⟩

/-- One aggregated summary line of the bulk path (update.py lines 531-551),
kept structured: each nonempty aggregation list is logged exactly once. -/
inductive LogLine where
  | skipRepos (rs : List String)
  | skipComponents (cs : List String)
  | overrideRepos (rs : List String)
  | overrideComponents (cs : List String)
  deriving Repr, DecidableEq

/-- The summary lines emitted after the bulk resolution loop: one line per
nonempty aggregation list. -/
def summaryLogs (st : BulkState) : List LogLine :=
  (if st.skippedRepos ≠ [] then [.skipRepos st.skippedRepos] else [])
    ++ (if st.skippedComponents ≠ [] then [.skipComponents st.skippedComponents] else [])
    ++ (if st.overriddenRepos ≠ [] then [.overrideRepos st.overriddenRepos] else [])
    ++ (if st.overriddenComponents ≠ [] then [.overrideComponents st.overriddenComponents] else [])

/-- Does a summary line report the given repo as skipped? -/
def mentionsSkippedRepo (repo : String) : LogLine → Bool
  | .skipRepos rs => rs.contains repo
  | _ => false

/-- One entry of the resolved update plan consumed by the entry loop of
`ComponentUpdate.update` (the `(modules_repo, component, sha, patch_relpath)`
tuples): component name, resolved sha (`none` = prompt/latest decides), and
whether a patch path is on record. -/
structure PlanEntry where
  name : String
  sha : Option String
  hasPatch : Bool
  deriving Repr, DecidableEq

/-- The flags and collaborator outcomes of one `ComponentUpdate.update` run:
CLI flags `force`, `prompt`, `show_diff`, `save_diff_fn` (as a boolean),
the interactive version prompt, the registry latest-version lookup, the
success of `install_component_files` (staging), the success of the
`ModulesDiffer` patch application, and the per-component confirmation answer
of the interactive preview mode. -/
structure RunCfg where
  force : Bool
  prompt : Bool
  showDiff : Bool
  saveDiff : Bool
  promptVersion : String → String
  latestVersion : String → String
  stagingOk : String → Bool
  patchApplies : String → Bool
  confirmUpdate : String → Bool

/-- Observable state of one `ComponentUpdate.update` run: the `exit_value`
and `all_patches_successful` booleans, the in-memory `modules.json` version
map (advanced with `write_file=False` in dry-run), and the effect logs —
on-disk component-directory replacements (`move_files_from_tmp_dir`), the
number of times `modules.json` was flushed to disk (`write_file=True`),
patch files relocated into the staging directory (which removes them from the
on-disk pipeline component directory), component diffs appended to the diff
file, and `update_linked_components` cascade invocations. -/
structure RunState where
  exitValue : Bool
  allPatchesSuccessful : Bool
  memJson : List (String × String)
  installs : List String
  jsonDiskWrites : Nat
  patchesMovedToStaging : List String
  pipelinePatchRemovals : List String
  diffFileEntries : List String
  cascades : List String
  deriving Repr, DecidableEq

/-- The version the entry loop resolves for one plan entry (update.py lines
157-164, via `resolveVersion`). -/
def entryVersion (cfg : RunCfg) (e : PlanEntry) : String :=
  resolveVersion e.sha cfg.prompt (cfg.promptVersion e.name) (cfg.latestVersion e.name)

/-- The up-to-date skip of update.py lines 166-172: a recorded current
version, no `--force`, and current equal to the resolved target make the loop
`continue` without staging. The current version is read from the in-memory
`modules.json`, so entries later in a run observe versions advanced by
earlier entries. -/
def skipsUpToDate (cfg : RunCfg) (st : RunState) (e : PlanEntry) : Bool :=
  (lookupKV st.memJson e.name).isSome && !cfg.force
    && (lookupKV st.memJson e.name == some (entryVersion cfg e))

/-- Embedding of one iteration of the entry loop of `ComponentUpdate.update`
(update.py lines 141-244): up-to-date skip; staging
(`install_component_files`, flipping `exit_value` on failure and skipping the
entry); patch reconciliation when a patch is on record — on success
`try_apply_patch` calls `add_patch_entry(..., write_file=True)`, flushing
`modules.json` to disk, and on failure the patch file is moved out of the
pipeline component directory into the staging directory and
`all_patches_successful` is cleared; then the dry-run decision — diff-to-file
appends the component diff, interactive preview turns `dry_run` off when the
user confirms; finally either install-and-flush-and-cascade (non-dry-run) or
an in-memory-only `modules.json` update (`write_file=False`). -/
def processEntry (cfg : RunCfg) (st : RunState) (e : PlanEntry) : RunState :=
  if skipsUpToDate cfg st e then st
  else if !(cfg.stagingOk e.name) then { st with exitValue := false }
  else
    let stP :=
      if e.hasPatch then
        if cfg.patchApplies e.name then
          { st with jsonDiskWrites := st.jsonDiskWrites + 1 }
        else
          { st with allPatchesSuccessful := false,
                    patchesMovedToStaging := st.patchesMovedToStaging ++ [e.name],
                    pipelinePatchRemovals := st.pipelinePatchRemovals ++ [e.name] }
      else st
    let stD :=
      if (cfg.showDiff || cfg.saveDiff) && cfg.saveDiff then
        { stP with diffFileEntries := stP.diffFileEntries ++ [e.name] }
      else stP
    let dryRun2 : Bool :=
      if (cfg.showDiff || cfg.saveDiff) && !cfg.saveDiff && cfg.showDiff then
        !(cfg.confirmUpdate e.name)
      else cfg.showDiff || cfg.saveDiff
    if !dryRun2 then
      { stD with installs := stD.installs ++ [e.name],
                 memJson := setKV stD.memJson e.name (entryVersion cfg e),
                 jsonDiskWrites := stD.jsonDiskWrites + 1,
                 cascades := stD.cascades ++ [e.name] }
    else
      { stD with memJson := setKV stD.memJson e.name (entryVersion cfg e) }

/-- The entry loop of `ComponentUpdate.update` over the resolved plan. -/
def runLoop (cfg : RunCfg) (entries : List PlanEntry) (st : RunState) : RunState :=
  entries.foldl (processEntry cfg) st

/-- Run state at the start of a run: `exit_value` and
`all_patches_successful` true, the given pre-existing `modules.json`
contents, and no effects yet. -/
def initialRunState (mem : List (String × String)) : RunState :=
  ⟨true, true, mem, [], 0, [], [], [], []⟩

/-- Metadata of one installed component in `modules.json`: its recorded
`installed_by` list of dependents. -/
structure CompMeta where
  installedBy : List String
  deriving Repr

/-- The `modules.json` `repos` tree:
repo url → component type → install directory → component name → metadata. -/
abbrev ModsJson := List (String × List (String × List (String × List (String × CompMeta))))

/-- Embedding of the `installed_by` lookup chain of
`get_modules_subworkflows_to_update` (update.py lines 735-737), with Python
`KeyError` semantics at each missing level. -/
def installedByOf (modsJson : ModsJson) (repoUrl ctype installDir component : String) :
    Except PyErr (List String) :=
  match dictIndex modsJson repoUrl with
  | .error e => .error e
  | .ok repoContent =>
    match dictIndex repoContent ctype with
    | .error e => .error e
    | .ok dirContent =>
      match dictIndex dirContent installDir with
      | .error e => .error e
      | .ok comps =>
        match dictIndex comps component with
        | .error e => .error e
        | .ok meta => .ok meta.installedBy

/-- Embedding of the subworkflow branch of
`get_modules_subworkflows_to_update` (update.py lines 743-755): scan every
entry of `modules.json` and collect the components whose `installed_by` names
the updated subworkflow, split by component type. -/
def collectLinked (component : String) (modsJson : ModsJson) :
    List String × List String :=
  modsJson.foldl (fun acc repoPair =>
    repoPair.2.foldl (fun acc ctypePair =>
      ctypePair.2.foldl (fun acc dirPair =>
        dirPair.2.foldl (fun acc compPair =>
          if compPair.2.installedBy.contains component then
            if ctypePair.1 = "modules" then (acc.1 ++ [compPair.1], acc.2)
            else if ctypePair.1 = "subworkflows" then (acc.1, acc.2 ++ [compPair.1])
            else acc
          else acc) acc) acc) acc) ([], [])

/-- Embedding of `ComponentUpdate.get_modules_subworkflows_to_update`
(update.py lines 730-757): the pair (modules to update, subworkflows to
update). For a module, the subworkflows to update are the `installed_by`
entries other than the component-type marker string. -/
def getModulesSubworkflowsToUpdate (ctype : String) (modsJson : ModsJson)
    (repoUrl installDir component : String) :
    Except PyErr (List String × List String) :=
  match installedByOf modsJson repoUrl ctype installDir component with
  | .error e => .error e
  | .ok installedBy =>
    if ctype = "modules" then
      .ok ([], installedBy.filter (fun s => s ≠ ctype))
    else if ctype = "subworkflows" then
      .ok (collectLinked component modsJson)
    else .ok ([], [])

/-- The reentrant context of the cascade: the active component type of the
`ComponentUpdate` instance and the log of nested `self.update(...)` calls,
each recorded with the component type active at call time. -/
structure CascadeState where
  componentType : String
  calls : List (String × String)
  deriving Repr, DecidableEq

/-- Embedding of one `for` loop of `update_linked_components` (update.py
lines 764-771): per element, `_change_component_type(target)` swaps the
active type, the nested `self.update(...)` runs (its raising behaviour given
by the `raises` oracle), and `_reset_component_type` restores the original
type — but only on a normal return: the source has no `try/finally`, so a
raising nested call propagates with the swapped type still active. -/
def runNestedUpdates (raises : String → Bool) (target : String) :
    List String → CascadeState → Except CascadeState CascadeState
  | [], st => .ok st
  | s :: rest, st =>
    if raises s then
      .error { componentType := target, calls := st.calls ++ [(target, s)] }
    else
      runNestedUpdates raises target rest
        { componentType := st.componentType, calls := st.calls ++ [(target, s)] }

/-- Embedding of `ComponentUpdate.update_linked_components` (update.py lines
759-771): compute the linked components, then run the subworkflow-typed
nested updates followed by the module-typed ones. The outer `Except` is a
`KeyError` escaping the `modules.json` lookup; the inner one distinguishes a
nested-call raise (carrying the state at the raise) from a normal return. -/
def updateLinkedComponents (raises : String → Bool) (modsJson : ModsJson)
    (repoUrl installDir component : String) (st : CascadeState) :
    Except PyErr (Except CascadeState CascadeState) :=
  match getModulesSubworkflowsToUpdate st.componentType modsJson repoUrl installDir component with
  | .error e => .error e
  | .ok modsSubs =>
    .ok (match runNestedUpdates raises "subworkflows" modsSubs.2 st with
      | .error stE => .error stE
      | .ok st2 =>
        match runNestedUpdates raises "modules" modsSubs.1 st2 with
        | .error stE => .error stE
        | .ok st3 => .ok st3)

/-- Contents of one component directory: file name to file content. -/
abbrev Files := List (String × String)

/-- Modelled from the spec: one per-file hunk of the external Diff/Patch
Engine (`ModulesDiffer`, spec section 6; its implementation is not under
src/). `oldC` is the content the file must have before the patch applies
(`none` = file absent), `newC` the content afterwards (`none` = removed). -/
structure FileEdit where
  file : String
  oldC : Option String
  newC : Option String
  deriving Repr, DecidableEq

/-- A patch: a list of per-file hunks. -/
abbrev Patch := List FileEdit

/-- First hunk of a patch touching the given file. -/
def lookupEdit : Patch → String → Option FileEdit
  | [], _ => none
  | e :: rest, f => if e.file = f then some e else lookupEdit rest f

/-- Modelled from the spec: `ModulesDiffer.write_diff_file` records the
difference between two directory trees as per-file hunks, keeping only files
whose content differs, so the patch reflects only the remaining delta. -/
def diffFiles (a b : Files) : Patch :=
  (a.filterMap (fun fc =>
    if lookupKV b fc.1 = some fc.2 then none
    else some ⟨fc.1, some fc.2, lookupKV b fc.1⟩))
  ++ (b.filterMap (fun fc =>
    if (lookupKV a fc.1).isNone then some ⟨fc.1, none, some fc.2⟩ else none))

/-- Modelled from the spec: a patch applies only when every hunk matches the
current content of its file — any hunk failure aborts the whole patch
atomically. -/
def editsApplicable (p : Patch) (base : Files) : Bool :=
  p.all (fun e => lookupKV base e.file == e.oldC)

/-- Modelled from the spec: `ModulesDiffer.try_apply_patch` returns the
patched file contents (changed and unchanged files of the target directory,
plus files the patch adds), raising `LookupError` on any hunk failure. -/
def applyPatch (p : Patch) (base : Files) : Except PyErr Files :=
  if editsApplicable p base then
    .ok ((base.filterMap (fun fc =>
        match lookupEdit p fc.1 with
        | some e =>
          match e.newC with
          | some n => some (fc.1, n)
          | none => none
        | none => some fc))
      ++ p.filterMap (fun e =>
          if e.oldC.isNone then
            match e.newC with
            | some n => some (e.file, n)
            | none => none
          else none))
  else .error (.lookupError "patch did not apply")

/-- Observable outcome of `ComponentUpdate.try_apply_patch`: the returned
boolean, the contents of `component_install_dir` afterwards, the regenerated
patch if any, whether `add_patch_entry(..., write_file=True)` persisted the
patch reference, and whether the failure path moved the original patch file
into the install directory. -/
structure PatchResult where
  success : Bool
  installDirFiles : Files
  regeneratedPatch : Option Patch
  persistedPatchFlush : Bool
  patchMovedToInstallDir : Bool
  deriving Repr

/-- Embedding of `ComponentUpdate.try_apply_patch` (update.py lines 657-728)
over the modelled engine: the staged install dir is copied to a scratch dir
and the recorded patch applied there; on a hunk failure (`LookupError`) the
original patch file is moved into the install dir and failure returned, the
staged content left unpatched; on success the patched contents are written
into the scratch copy, the patch is regenerated as the diff from the pristine
`component_install_dir` to the patched scratch copy, the install dir content
is replaced by the scratch copy, and the patch reference is persisted via
`add_patch_entry(..., write_file=True)`. -/
def tryApplyPatch (recordedPatch : Patch) (stagedFiles : Files) : PatchResult :=
  match applyPatch recordedPatch stagedFiles with
  | .error _ => ⟨false, stagedFiles, none, false, true⟩
  | .ok newFiles => ⟨true, newFiles, some (diffFiles stagedFiles newFiles), true, false⟩

/-- Embedding of the `while self.save_diff_fn.exists()` loop of
`ComponentUpdate.setup_diff_file` (update.py lines 619-627). `disk` is the
set of existing files; each response is the answer to the `Remove file?`
confirmation together with the filename entered at the re-prompt when
removal is declined. A confirmed removal deletes the file and breaks the
loop; a declined one re-prompts and re-checks. `none` means the interaction
trace ended before the loop did. Returns the disk, the final filename and
whether a removal happened. -/
def setupDiffLoop (disk : List String) :
    String → List (Bool × String) → Option (List String × String × Bool)
  | fn, [] => if disk.contains fn then none else some (disk, fn, false)
  | fn, (confirmRemove, newFn) :: rest =>
    if disk.contains fn then
      (if confirmRemove then some (disk.erase fn, fn, true)
        else setupDiffLoop disk newFn rest)
    else some (disk, fn, false)

/-- Python `Path.touch()`: create the file if absent, leave it otherwise. -/
def touchFile (disk : List String) (fn : String) : List String :=
  if disk.contains fn then disk else fn :: disk

/-- Embedding of `ComponentUpdate.setup_diff_file` (update.py lines 603-630)
from the point where a filename string is at hand: run the exists-loop, then
`touch` the final path so the file is guaranteed to exist on return. -/
def setupDiffFile (disk : List String) (fn : String) (resp : List (Bool × String)) :
    Option (List String × String × Bool) :=
  match setupDiffLoop disk fn resp with
  | none => none
  | some dfr => some (touchFile dfr.1 dfr.2.1, dfr.2.1, dfr.2.2)

/-! Theorems settling the claims, in claim order, preceded by helper lemmas
about the association-list primitives and the bulk loop. -/

theorem lookupKV_setKV_ne {α : Type} (m : List (String × α)) (k k' : String) (v : α)
    (h : k ≠ k') : lookupKV (setKV m k v) k' = lookupKV m k' := by
  induction m with
  | nil => simp [setKV, lookupKV, h]
  | cons p rest ih =>
    obtain ⟨a, b⟩ := p
    by_cases ha : a = k
    · subst ha
      simp [setKV, lookupKV, h]
    · simp [setKV, lookupKV, ha, ih]

theorem appendEntry_lookup_ne (info info2 : CompInfo) (repo' dir repo : String) (e : CompEntry)
    (h : appendEntry info repo' dir e = .ok info2) (hne : repo' ≠ repo) :
    lookupKV info2 repo = lookupKV info repo := by
  unfold appendEntry at h
  split at h
  · cases h
  · split at h
    · injection h with h2
      rw [← h2]
      exact lookupKV_setKV_ne info repo' repo _ hne
    · injection h with h2
      rw [← h2]
      exact lookupKV_setKV_ne info repo' repo _ hne

theorem appendLoop_lookup_ne (repo' repo : String)
    (branchOf : String → String → String → String) (hne : repo' ≠ repo) :
    ∀ (entries : List (String × String × Option String)) (info info2 : CompInfo),
      appendLoop repo' branchOf entries info = .ok info2 →
      lookupKV info2 repo = lookupKV info repo := by
  intro entries
  induction entries with
  | nil =>
    intro info info2 h
    unfold appendLoop at h
    injection h with h2
    rw [h2]
  | cons p rest ih =>
    intro info info2 h
    obtain ⟨dir, comp, sha⟩ := p
    unfold appendLoop at h
    cases hA : appendEntry info repo' dir (comp, sha, branchOf comp repo' dir) with
    | error e => rw [hA] at h; cases h
    | ok infoMid =>
      rw [hA] at h
      rw [ih infoMid info2 h]
      exact appendEntry_lookup_ne info infoMid repo' dir repo _ hA hne

theorem dirConfigComponentsLoop_preserves (repo' repo : String) (cliSha : Option String)
    (branchOf : String → String → String → String) (dirConfig : List (String × CfgEntry))
    (hne : repo' ≠ repo) :
    ∀ (cs : List (String × String)) (st st2 : BulkState),
      dirConfigComponentsLoop repo' cliSha branchOf dirConfig cs st = .ok st2 →
      lookupKV st2.info repo = lookupKV st.info repo ∧ st2.skippedRepos = st.skippedRepos := by
  intro cs
  induction cs with
  | nil =>
    intro st st2 h
    unfold dirConfigComponentsLoop at h
    injection h with h2
    subst h2
    exact ⟨rfl, rfl⟩
  | cons p rest ih =>
    intro st st2 h
    obtain ⟨dir2, comp⟩ := p
    unfold dirConfigComponentsLoop at h
    split at h
    · split at h
      · cases h
      · rename_i info2 hA
        obtain ⟨h1, h2⟩ := ih _ _ h
        exact ⟨by rw [h1]; exact appendEntry_lookup_ne _ _ _ _ _ _ hA hne, h2⟩
    · split at h
      · cases h
      · rename_i info2 hA
        obtain ⟨h1, h2⟩ := ih _ _ h
        exact ⟨by rw [h1]; exact appendEntry_lookup_ne _ _ _ _ _ _ hA hne, h2⟩
    · split at h
      · cases h
      · rename_i info2 hA
        split at h
        · obtain ⟨h1, h2⟩ := ih _ _ h
          exact ⟨by rw [h1]; exact appendEntry_lookup_ne _ _ _ _ _ _ hA hne, h2⟩
        · obtain ⟨h1, h2⟩ := ih _ _ h
          exact ⟨by rw [h1]; exact appendEntry_lookup_ne _ _ _ _ _ _ hA hne, h2⟩
    · obtain ⟨h1, h2⟩ := ih _ _ h
      exact ⟨h1, h2⟩
    · cases h
    · cases h

theorem processDictDir_preserves (repo' repo : String) (cliSha : Option String)
    (branchOf : String → String → String → String)
    (components : List (String × String)) (cfg : List (String × CfgEntry))
    (hne : repo' ≠ repo) (st st2 : BulkState) (d : String)
    (h : processDictDir repo' cliSha branchOf components cfg st d = .ok st2) :
    lookupKV st2.info repo = lookupKV st.info repo ∧ st2.skippedRepos = st.skippedRepos := by
  unfold processDictDir at h
  split at h
  · cases h
  · split at h
    · cases h
    · rename_i info2 hA
      have hbase : lookupKV info2 repo = lookupKV st.info repo := by
        rw [appendLoop_lookup_ne repo' repo branchOf hne _ _ _ hA]
        exact lookupKV_setKV_ne st.info repo' repo _ hne
      split at h
      · injection h with h2
        subst h2
        exact ⟨hbase, rfl⟩
      · injection h with h2
        subst h2
        exact ⟨hbase, rfl⟩
  · injection h with h2
    subst h2
    exact ⟨rfl, rfl⟩
  · obtain ⟨h1, h2⟩ := dirConfigComponentsLoop_preserves repo' repo cliSha branchOf _ hne _ _ _ h
    refine ⟨?_, h2⟩
    rw [h1]
    exact lookupKV_setKV_ne st.info repo' repo _ hne
  · injection h with h2
    subst h2
    exact ⟨rfl, rfl⟩
  · injection h with h2
    subst h2
    exact ⟨rfl, rfl⟩

theorem processDictDirs_preserves (repo' repo : String) (cliSha : Option String)
    (branchOf : String → String → String → String)
    (components : List (String × String)) (cfg : List (String × CfgEntry))
    (hne : repo' ≠ repo) :
    ∀ (ds : List String) (st st2 : BulkState),
      processDictDirs repo' cliSha branchOf components cfg ds st = .ok st2 →
      lookupKV st2.info repo = lookupKV st.info repo ∧ st2.skippedRepos = st.skippedRepos := by
  intro ds
  induction ds with
  | nil =>
    intro st st2 h
    unfold processDictDirs at h
    injection h with h2
    subst h2
    exact ⟨rfl, rfl⟩
  | cons d ds ih =>
    intro st st2 h
    unfold processDictDirs at h
    split at h
    · cases h
    · rename_i stMid hD
      obtain ⟨h1, h2⟩ := ih _ _ h
      obtain ⟨h3, h4⟩ := processDictDir_preserves repo' repo cliSha branchOf components cfg hne _ _ _ hD
      exact ⟨h1.trans h3, h2.trans h4⟩

theorem processRepo_preserves (repo' repo : String) (updateConfig : List (String × CfgEntry))
    (cliSha : Option String) (branchOf : String → String → String → String)
    (components : List (String × String)) (hne : repo' ≠ repo) (st st2 : BulkState)
    (h : processRepo updateConfig cliSha branchOf st repo' components = .ok st2) :
    lookupKV st2.info repo = lookupKV st.info repo
      ∧ st2.skippedRepos.count repo = st.skippedRepos.count repo := by
  unfold processRepo at h
  split at h
  · split at h
    · cases h
    · rename_i info2 hA
      injection h with h2
      subst h2
      refine ⟨?_, rfl⟩
      rw [appendLoop_lookup_ne repo' repo branchOf hne _ _ _ hA]
      exact lookupKV_setKV_ne st.info repo' repo _ hne
  · split at h
    · cases h
    · rename_i info2 hA
      injection h with h2
      subst h2
      refine ⟨?_, rfl⟩
      rw [appendLoop_lookup_ne repo' repo branchOf hne _ _ _ hA]
      exact lookupKV_setKV_ne st.info repo' repo _ hne
  · obtain ⟨h1, h2⟩ := processDictDirs_preserves repo' repo cliSha branchOf components _ hne _ _ _ h
    exact ⟨h1, by rw [h2]⟩
  · split at h
    · cases h
    · rename_i info2 hA
      have hbase : lookupKV info2 repo = lookupKV st.info repo := by
        rw [appendLoop_lookup_ne repo' repo branchOf hne _ _ _ hA]
        exact lookupKV_setKV_ne st.info repo' repo _ hne
      split at h
      · injection h with h2
        subst h2
        exact ⟨hbase, rfl⟩
      · injection h with h2
        subst h2
        exact ⟨hbase, rfl⟩
  · injection h with h2
    subst h2
    refine ⟨rfl, ?_⟩
    simp [List.count_append, List.count_cons, hne, Ne.symm hne]
  · cases h

theorem processRepos_preserves (repo : String) (updateConfig : List (String × CfgEntry))
    (cliSha : Option String) (branchOf : String → String → String → String) :
    ∀ (rs : List (String × List (String × String))) (st st2 : BulkState),
      repo ∉ rs.map Prod.fst →
      processRepos updateConfig cliSha branchOf rs st = .ok st2 →
      lookupKV st2.info repo = lookupKV st.info repo
        ∧ st2.skippedRepos.count repo = st.skippedRepos.count repo := by
  intro rs
  induction rs with
  | nil =>
    intro st st2 _ h
    unfold processRepos at h
    injection h with h2
    subst h2
    exact ⟨rfl, rfl⟩
  | cons p rest ih =>
    intro st st2 hnotin h
    obtain ⟨r, cs⟩ := p
    unfold processRepos at h
    split at h
    · cases h
    · rename_i stMid hR
      have hner : r ≠ repo := by
        intro he
        exact hnotin (by simp [he])
      have hrest : repo ∉ rest.map Prod.fst := by
        intro he
        exact hnotin (by simp [he])
      obtain ⟨h1, h2⟩ := ih _ _ hrest h
      obtain ⟨h3, h4⟩ := processRepo_preserves r repo updateConfig cliSha branchOf cs hner _ _ hR
      exact ⟨h1.trans h3, h2.trans h4⟩

theorem processRepo_false (updateConfig : List (String × CfgEntry)) (cliSha : Option String)
    (branchOf : String → String → String → String) (st st2 : BulkState) (repo : String)
    (components : List (String × String))
    (hcfg : lookupKV updateConfig repo = some .false_)
    (h : processRepo updateConfig cliSha branchOf st repo components = .ok st2) :
    st2 = { st with skippedRepos := st.skippedRepos ++ [repo] } := by
  unfold processRepo at h
  split at h
  all_goals rename_i heq
  · rw [hcfg] at heq
    cases heq
  · rw [hcfg] at heq
    cases heq
  · rw [hcfg] at heq
    cases heq
  · rw [hcfg] at heq
    cases heq
  · injection h with h2
    exact h2.symm
  · rw [hcfg] at heq
    cases heq

theorem countP_if_single {α : Type} (c : Prop) [Decidable c] (x : α) (p : α → Bool)
    (h : p x = false) : (if c then [x] else []).countP p = 0 := by
  split <;> simp [List.countP_cons, h]

theorem processRepos_false_once (repo : String) (updateConfig : List (String × CfgEntry))
    (cliSha : Option String) (branchOf : String → String → String → String)
    (comps : List (String × String))
    (hcfg : lookupKV updateConfig repo = some .false_) :
    ∀ (rs : List (String × List (String × String))) (st0 st : BulkState),
      (rs.map Prod.fst).Nodup → (repo, comps) ∈ rs →
      processRepos updateConfig cliSha branchOf rs st0 = .ok st →
      lookupKV st.info repo = lookupKV st0.info repo
        ∧ st.skippedRepos.count repo = st0.skippedRepos.count repo + 1 := by
  intro rs
  induction rs with
  | nil =>
    intro st0 st _ hmem _
    cases hmem
  | cons p rest ih =>
    intro st0 st hnodup hmem h
    obtain ⟨r, cs⟩ := p
    rw [List.map_cons] at hnodup
    have hhead : r ∉ rest.map Prod.fst := (List.nodup_cons.mp hnodup).1
    have htail : (rest.map Prod.fst).Nodup := (List.nodup_cons.mp hnodup).2
    unfold processRepos at h
    split at h
    · cases h
    · rename_i stMid hR
      rcases List.mem_cons.mp hmem with heq | hmem2
      · have hr : r = repo := by
          have := congrArg Prod.fst heq
          exact this.symm
        subst hr
        have hMid : stMid = { st0 with skippedRepos := st0.skippedRepos ++ [r] } :=
          processRepo_false updateConfig cliSha branchOf st0 stMid r cs hcfg hR
        obtain ⟨h1, h2⟩ := processRepos_preserves r updateConfig cliSha branchOf rest stMid st hhead h
        subst hMid
        constructor
        · exact h1
        · rw [h2]
          simp [List.count_append, List.count_cons]
      · have hrin : repo ∈ rest.map Prod.fst :=
          List.mem_map_of_mem Prod.fst hmem2
        have hner : r ≠ repo := by
          intro he
          rw [he] at hhead
          exact hhead hrin
        obtain ⟨h3, h4⟩ := processRepo_preserves r repo updateConfig cliSha branchOf cs hner _ _ hR
        obtain ⟨h1, h2⟩ := ih stMid st htail hmem2 h
        exact ⟨h1.trans h3, by rw [h2, h4]⟩

/-- C7: on the bulk path, a repo whose `.nf-core.yml` entry is boolean `False`
is skipped entirely: the resolved plan has no slot for that repo, the repo is
recorded in the skipped-repos aggregation exactly once, and the summary log
contains exactly one line reporting that repo as skipped (one aggregated line
for the whole run, not one per component). -/
theorem bulk_repo_false_skipped_once
    (allComponents : List (String × List (String × String)))
    (updateConfig : List (String × CfgEntry)) (cliSha : Option String)
    (branchOf : String → String → String → String)
    (repo : String) (comps : List (String × String)) (st : BulkState)
    (hnodup : (allComponents.map Prod.fst).Nodup)
    (hmem : (repo, comps) ∈ allComponents)
    (hcfg : lookupKV updateConfig repo = some .false_)
    (hrun : getAllComponentsInfoResolve allComponents updateConfig cliSha branchOf = .ok st) :
    lookupKV st.info repo = none
      ∧ st.skippedRepos.count repo = 1
      ∧ (summaryLogs st).countP (mentionsSkippedRepo repo) = 1 := by
  obtain ⟨h1, h2⟩ := processRepos_false_once repo updateConfig cliSha branchOf comps hcfg
    allComponents ⟨[], [], [], [], []⟩ st hnodup hmem hrun
  have hcount : st.skippedRepos.count repo = 1 := by
    rw [h2]
    rfl
  have hmemskip : repo ∈ st.skippedRepos := by
    by_contra hno
    rw [List.count_eq_zero_of_not_mem hno] at hcount
    cases hcount
  have hnonempty : st.skippedRepos ≠ [] := by
    intro he
    rw [he] at hmemskip
    cases hmemskip
  refine ⟨by rw [h1]; rfl, hcount, ?_⟩
  unfold summaryLogs
  rw [List.countP_append, List.countP_append, List.countP_append]
  rw [if_pos hnonempty]
  have hz1 : (if st.skippedComponents ≠ [] then [LogLine.skipComponents st.skippedComponents]
      else []).countP (mentionsSkippedRepo repo) = 0 :=
    countP_if_single _ _ _ rfl
  have hz2 : (if st.overriddenRepos ≠ [] then [LogLine.overrideRepos st.overriddenRepos]
      else []).countP (mentionsSkippedRepo repo) = 0 :=
    countP_if_single _ _ _ rfl
  have hz3 : (if st.overriddenComponents ≠ [] then
      [LogLine.overrideComponents st.overriddenComponents]
      else []).countP (mentionsSkippedRepo repo) = 0 :=
    countP_if_single _ _ _ rfl
  rw [hz1, hz2, hz3]
  simp [List.countP_cons, mentionsSkippedRepo, List.elem_iff, hmemskip]

/-- Witness for C7 at a concrete input: one repo pinned to `False` with one
installed component resolves to an empty plan with one skip line. -/
theorem bulk_repo_false_skipped_once_witness :
    lookupKV (BulkState.mk [] ["r1"] [] [] []).info "r1" = none
      ∧ (BulkState.mk [] ["r1"] [] [] []).skippedRepos.count "r1" = 1
      ∧ (summaryLogs (BulkState.mk [] ["r1"] [] [] [])).countP (mentionsSkippedRepo "r1") = 1 :=
  bulk_repo_false_skipped_once [("r1", [("nf-core", "fastqc")])] [("r1", .false_)] none
    (fun _ _ _ => "master") "r1" [("nf-core", "fastqc")] ⟨[], ["r1"], [], [], []⟩
    (by simp) (by simp) rfl rfl

/-- C5: on the bulk path the nested-dict resolution does NOT apply the claimed
four-way rule at the directory level: the `if/elif` chain at update.py lines
409-441 has no `else`, so a directory entry that is `True` (one of the four
claimed shapes, supposed to mean "update normally") is silently dropped — the
component reaches no outcome at all: no plan entry, no skip record, no
override record, and no configuration error. This theorem evaluates the
embedding at that failing input: one repo with one component under `nf-core`
and the override `repo -> dict(nf-core -> True)` yields an empty resolution
state instead of a normal-update plan entry (an absent directory key likewise
raises `KeyError` rather than updating normally). -/
theorem bulk_dir_level_true_silently_drops :
    getAllComponentsInfoResolve
        [("https://github.com/nf-core/modules.git", [("nf-core", "fastqc")])]
        [("https://github.com/nf-core/modules.git", .dict [("nf-core", .true_)])]
        none (fun _ _ _ => "master")
      = .ok ⟨[], [], [], [], []⟩ := rfl

theorem lookupKV_setKV_self {α : Type} (m : List (String × α)) (k : String) (v : α) :
    lookupKV (setKV m k v) k = some v := by
  induction m with
  | nil => simp [setKV, lookupKV]
  | cons p rest ih =>
    obtain ⟨a, b⟩ := p
    by_cases ha : a = k
    · subst ha
      simp [setKV, lookupKV]
    · simp [setKV, lookupKV, ha, ih]

theorem processEntry_exitValue_of_staging (cfg : RunCfg) (st : RunState) (e : PlanEntry)
    (hstage : cfg.stagingOk e.name = true) :
    (processEntry cfg st e).exitValue = st.exitValue := by
  unfold processEntry
  simp only [hstage, Bool.not_true]
  split_ifs <;> first | contradiction | rfl

theorem processEntry_exitValue_false (cfg : RunCfg) (st : RunState) (e : PlanEntry)
    (h : (processEntry cfg st e).exitValue = false) :
    st.exitValue = false ∨ cfg.stagingOk e.name = false := by
  cases hstage : cfg.stagingOk e.name with
  | true =>
    left
    rw [← processEntry_exitValue_of_staging cfg st e hstage]
    exact h
  | false => exact Or.inr rfl

theorem runLoop_exitValue_of_staging (cfg : RunCfg) :
    ∀ (entries : List PlanEntry) (st0 : RunState),
      (∀ e2 ∈ entries, cfg.stagingOk e2.name = true) →
      (runLoop cfg entries st0).exitValue = st0.exitValue := by
  intro entries
  induction entries with
  | nil => intro st0 _; rfl
  | cons e rest ih =>
    intro st0 hall
    have h1 : runLoop cfg (e :: rest) st0 = runLoop cfg rest (processEntry cfg st0 e) := rfl
    rw [h1, ih _ (fun e2 he2 => hall e2 (List.mem_cons_of_mem e he2))]
    exact processEntry_exitValue_of_staging cfg st0 e (hall e (List.mem_cons_self e rest))

theorem runLoop_exitValue_false (cfg : RunCfg) :
    ∀ (entries : List PlanEntry) (st0 : RunState),
      (runLoop cfg entries st0).exitValue = false →
      st0.exitValue = false ∨ ∃ e2 ∈ entries, cfg.stagingOk e2.name = false := by
  intro entries
  induction entries with
  | nil =>
    intro st0 h
    exact Or.inl h
  | cons e rest ih =>
    intro st0 h
    have h1 : runLoop cfg (e :: rest) st0 = runLoop cfg rest (processEntry cfg st0 e) := rfl
    rw [h1] at h
    rcases ih _ h with h2 | h2
    · rcases processEntry_exitValue_false cfg st0 e h2 with h3 | h3
      · exact Or.inl h3
      · exact Or.inr ⟨e, List.mem_cons_self e rest, h3⟩
    · obtain ⟨e2, he2, h3⟩ := h2
      exact Or.inr ⟨e2, List.mem_cons_of_mem e he2, h3⟩

/-- C1 failing input: a diff-to-file run (`save_diff_fn` set, `show_diff`
off), no force, staging succeeds and the recorded patch applies cleanly. -/
def saveDiffRunCfg : RunCfg :=
  ⟨false, false, false, true, fun _ => "prompted", fun _ => "newsha", fun _ => true,
    fun _ => true, fun _ => false⟩

/-- C1: the claim that a dry-run never flushes `modules.json` fails on the
code: in a diff-to-file run whose single entry has a recorded patch that
applies, `try_apply_patch` calls `add_patch_entry(..., write_file=True)`
(update.py lines 723-726), flushing the persisted state to disk once even
though the entry loop then only updates the in-memory state with
`write_file=False`. The component directory itself is indeed not installed to
(`installs = []`) and the in-memory state is advanced; the disk flush is the
divergence. -/
theorem dry_run_flushes_modules_json_on_patch_success :
    (runLoop saveDiffRunCfg [⟨"fastqc", none, true⟩]
        (initialRunState [("fastqc", "oldsha")])).jsonDiskWrites = 1
      ∧ (runLoop saveDiffRunCfg [⟨"fastqc", none, true⟩]
          (initialRunState [("fastqc", "oldsha")])).installs = []
      ∧ (runLoop saveDiffRunCfg [⟨"fastqc", none, true⟩]
          (initialRunState [("fastqc", "oldsha")])).memJson = [("fastqc", "newsha")] :=
  ⟨rfl, rfl, rfl⟩

/-- C3: a plan entry whose recorded patch fails to apply has its original
patch file relocated into the entry's staging directory, clears
`all_patches_successful`, leaves `exit_value` untouched, and still proceeds —
the in-memory state records the resolved version for it; at run level,
`exit_value` stays at its initial value whenever every entry stages
successfully (patch failures never flip it), and a false `exit_value` can
only come from an entry whose staging failed (or a false initial value). -/
theorem patch_failure_relocates_and_does_not_flip_exit
    (cfg : RunCfg) (st : RunState) (e : PlanEntry)
    (hskip : skipsUpToDate cfg st e = false)
    (hstage : cfg.stagingOk e.name = true)
    (hpatch : e.hasPatch = true)
    (hfail : cfg.patchApplies e.name = false) :
    ((processEntry cfg st e).patchesMovedToStaging = st.patchesMovedToStaging ++ [e.name]
      ∧ (processEntry cfg st e).allPatchesSuccessful = false
      ∧ (processEntry cfg st e).exitValue = st.exitValue
      ∧ lookupKV (processEntry cfg st e).memJson e.name = some (entryVersion cfg e))
    ∧ (∀ (entries : List PlanEntry) (st0 : RunState),
        (∀ e2 ∈ entries, cfg.stagingOk e2.name = true) →
        (runLoop cfg entries st0).exitValue = st0.exitValue)
    ∧ (∀ (entries : List PlanEntry) (st0 : RunState),
        (runLoop cfg entries st0).exitValue = false →
        st0.exitValue = false ∨ ∃ e2 ∈ entries, cfg.stagingOk e2.name = false) := by
  refine ⟨?_, runLoop_exitValue_of_staging cfg, runLoop_exitValue_false cfg⟩
  unfold processEntry
  simp only [hskip, hstage, hpatch, hfail, Bool.not_true, if_false, if_true]
  split_ifs <;> first | contradiction | simp [lookupKV_setKV_self]

/-- C3 concrete collaborators: interactive preview mode, staging succeeds,
the recorded patch fails to apply, the user declines the install prompt. -/
def previewPatchFailCfg : RunCfg :=
  ⟨false, false, true, false, fun _ => "prompted", fun _ => "newsha", fun _ => true,
    fun _ => false, fun _ => false⟩

/-- Witness for C3 at a concrete input: one preview-mode entry with a failing
patch relocates the patch, clears the patch flag, keeps `exit_value` true and
records the new version in memory. -/
theorem patch_failure_relocates_and_does_not_flip_exit_witness :
    (processEntry previewPatchFailCfg (initialRunState [("fastqc", "oldsha")])
        ⟨"fastqc", none, true⟩).patchesMovedToStaging = ["fastqc"]
      ∧ (processEntry previewPatchFailCfg (initialRunState [("fastqc", "oldsha")])
          ⟨"fastqc", none, true⟩).allPatchesSuccessful = false
      ∧ (processEntry previewPatchFailCfg (initialRunState [("fastqc", "oldsha")])
          ⟨"fastqc", none, true⟩).exitValue = true
      ∧ lookupKV (processEntry previewPatchFailCfg (initialRunState [("fastqc", "oldsha")])
          ⟨"fastqc", none, true⟩).memJson "fastqc"
        = some (entryVersion previewPatchFailCfg ⟨"fastqc", none, true⟩) :=
  (patch_failure_relocates_and_does_not_flip_exit previewPatchFailCfg
    (initialRunState [("fastqc", "oldsha")]) ⟨"fastqc", none, true⟩ rfl rfl rfl rfl).1

theorem countP_beq_eq_one_of_mem_nodup (l : List String) (a : String)
    (hnd : l.Nodup) (h : a ∈ l) : l.countP (fun s => s == a) = 1 := by
  induction l with
  | nil => cases h
  | cons b rest ih =>
    rw [List.countP_cons]
    rcases List.mem_cons.mp h with heq | hmem
    · cases heq
      have hbnot : a ∉ rest := (List.nodup_cons.mp hnd).1
      have h0 : rest.countP (fun s => s == a) = 0 := by
        rw [List.countP_eq_zero]
        intro x hx
        simp only [beq_iff_eq]
        intro hxa
        exact hbnot (hxa ▸ hx)
      simp [h0]
    · have hbne : b ≠ a := by
        intro he
        exact (List.nodup_cons.mp hnd).1 (he ▸ hmem)
      have h1 := ih (List.nodup_cons.mp hnd).2 hmem
      simp [h1, hbne]

theorem runNestedUpdates_no_raise (raises : String → Bool) (target : String) :
    ∀ (list : List String) (st : CascadeState),
      (∀ s ∈ list, raises s = false) →
      runNestedUpdates raises target list st
        = .ok ⟨st.componentType, st.calls ++ list.map (fun s => (target, s))⟩ := by
  intro list
  induction list with
  | nil =>
    intro st _
    simp [runNestedUpdates]
  | cons s rest ih =>
    intro st hall
    have hs : raises s = false := hall s (List.mem_cons_self s rest)
    have hrest : ∀ s2 ∈ rest, raises s2 = false :=
      fun s2 hs2 => hall s2 (List.mem_cons_of_mem s hs2)
    unfold runNestedUpdates
    rw [hs]
    simp only [Bool.false_eq_true, if_false]
    rw [ih _ hrest]
    simp

/-- The `modules.json` tree of the C4 scenario: one module `mymod` whose
`installed_by` names the marker `modules` and the subworkflow `swf_a`. -/
def cascadeModsJson : ModsJson :=
  [("r1", [("modules", [("nf-core", [("mymod", ⟨["modules", "swf_a"]⟩)])])])]

/-- C4 counterexample: the claim that the active component type is restored
"regardless of whether the nested call returns normally or raises" is false —
`update_linked_components` has no `try/finally`, so when the nested
subworkflow update for `swf_a` raises, the exception propagates with the
active type left at `subworkflows`, not restored to the caller's `modules`. -/
theorem linked_update_raise_leaves_type_unrestored :
    updateLinkedComponents (fun s => s == "swf_a") cascadeModsJson "r1" "nf-core" "mymod"
        ⟨"modules", []⟩
      = .ok (.error ⟨"subworkflows", [("subworkflows", "swf_a")]⟩) := rfl

/-- C4 amended: after updating a module, exactly one nested
subworkflow-typed update is triggered for each subworkflow named in the
module's `installed_by` set (excluding the component-type marker entry), and
the caller's active component type is restored after each nested call that
returns normally; a raising nested call propagates with the type left
swapped (see the counterexample). -/
theorem linked_update_normal_calls_restore_type
    (raises : String → Bool) (modsJson : ModsJson)
    (repoUrl installDir component : String)
    (st : CascadeState) (installedBy : List String)
    (hctype : st.componentType = "modules")
    (hlook : installedByOf modsJson repoUrl "modules" installDir component = .ok installedBy)
    (hnoraise : ∀ s ∈ installedBy.filter (fun s => s ≠ "modules"), raises s = false) :
    updateLinkedComponents raises modsJson repoUrl installDir component st
      = .ok (.ok ⟨"modules", st.calls
          ++ (installedBy.filter (fun s => s ≠ "modules")).map (fun s => ("subworkflows", s))⟩)
    ∧ (installedBy.Nodup → ∀ S ∈ installedBy, S ≠ "modules" →
        ((installedBy.filter (fun s => s ≠ "modules")).map
          (fun s => (("subworkflows", s) : String × String))).countP
            (fun c => c.2 == S) = 1) := by
  constructor
  · have h1 : getModulesSubworkflowsToUpdate st.componentType modsJson repoUrl installDir
        component = .ok ([], installedBy.filter (fun s => s ≠ "modules")) := by
      rw [hctype]
      unfold getModulesSubworkflowsToUpdate
      rw [hlook]
      simp
    have h2 := runNestedUpdates_no_raise raises "subworkflows"
      (installedBy.filter (fun s => s ≠ "modules")) st hnoraise
    simp only [updateLinkedComponents, h1, h2]
    simp [runNestedUpdates, hctype]
  · intro hnd S hS hSne
    have hmem : S ∈ installedBy.filter (fun s => s ≠ "modules") :=
      List.mem_filter.mpr ⟨hS, by simp [hSne]⟩
    have hndf : (installedBy.filter (fun s => s ≠ "modules")).Nodup := hnd.filter _
    rw [List.countP_map]
    show (installedBy.filter (fun s => s ≠ "modules")).countP (fun s => s == S) = 1
    exact countP_beq_eq_one_of_mem_nodup _ _ hndf hmem

/-- Witness for the C4 amended theorem at a concrete input: `mymod` installed
by `swf_a` triggers exactly the one nested subworkflow call and the type ends
restored to `modules`. -/
theorem linked_update_normal_calls_restore_type_witness :
    updateLinkedComponents (fun _ => false) cascadeModsJson "r1" "nf-core" "mymod"
        ⟨"modules", []⟩
      = .ok (.ok ⟨"modules", [("subworkflows", "swf_a")]⟩) :=
  (linked_update_normal_calls_restore_type (fun _ => false) cascadeModsJson "r1" "nf-core"
    "mymod" ⟨"modules", []⟩ ["modules", "swf_a"] rfl rfl (fun _ _ => rfl)).1

theorem lookupKV_append {α : Type} (x y : List (String × α)) (k : String) :
    lookupKV (x ++ y) k = match lookupKV x k with
      | some v => some v
      | none => lookupKV y k := by
  induction x with
  | nil => simp [lookupKV]
  | cons p rest ih =>
    obtain ⟨a, b⟩ := p
    by_cases ha : a = k
    · simp [lookupKV, ha]
    · simp [lookupKV, ha, ih]

theorem lookupKV_of_mem_nodup {α : Type} (l : List (String × α)) (k : String) (v : α)
    (hmem : (k, v) ∈ l) (hnd : (l.map Prod.fst).Nodup) : lookupKV l k = some v := by
  induction l with
  | nil => cases hmem
  | cons p rest ih =>
    obtain ⟨a, b⟩ := p
    rw [List.map_cons] at hnd
    rcases List.mem_cons.mp hmem with heq | hmem2
    · cases heq
      simp [lookupKV]
    · have ha : a ≠ k := by
        intro he
        subst he
        have hin : a ∈ rest.map Prod.fst := List.mem_map.mpr ⟨(a, v), hmem2, rfl⟩
        exact (List.nodup_cons.mp hnd).1 hin
      simp [lookupKV, ha, ih hmem2 (List.nodup_cons.mp hnd).2]

theorem lookupKV_filterMap_notin {β γ : Type} (g : String × β → Option (String × γ))
    (hg : ∀ fc y, g fc = some y → y.1 = fc.1) :
    ∀ (l : List (String × β)) (k : String), k ∉ l.map Prod.fst →
      lookupKV (l.filterMap g) k = none := by
  intro l
  induction l with
  | nil => intro k _; rfl
  | cons p rest ih =>
    intro k hk
    obtain ⟨a, b⟩ := p
    have hak : a ≠ k := by
      intro he
      exact hk (by simp [he])
    have hk2 : k ∉ rest.map Prod.fst := by
      intro he
      exact hk (by simp [he])
    cases hgp : g (a, b) with
    | none =>
      rw [List.filterMap_cons, hgp]
      exact ih k hk2
    | some y =>
      obtain ⟨y1, y2⟩ := y
      have hy : y1 = a := hg _ _ hgp
      rw [List.filterMap_cons, hgp]
      simp only [lookupKV, hy, hak, if_false]
      exact ih k hk2

theorem lookupKV_filterMap_keyed {β γ : Type} (g : String × β → Option (String × γ))
    (hg : ∀ fc y, g fc = some y → y.1 = fc.1) :
    ∀ (l : List (String × β)), (l.map Prod.fst).Nodup → ∀ (k : String),
      lookupKV (l.filterMap g) k = match lookupKV l k with
        | none => none
        | some v => (g (k, v)).map Prod.snd := by
  intro l
  induction l with
  | nil => intro _ k; rfl
  | cons p rest ih =>
    intro hnd k
    obtain ⟨a, b⟩ := p
    rw [List.map_cons] at hnd
    have hrest : k ∉ rest.map Prod.fst → lookupKV (rest.filterMap g) k = none :=
      lookupKV_filterMap_notin g hg rest k
    by_cases hak : a = k
    · subst hak
      have hnotin : a ∉ rest.map Prod.fst := (List.nodup_cons.mp hnd).1
      cases hgp : g (a, b) with
      | none =>
        rw [List.filterMap_cons, hgp, hrest hnotin]
        simp [lookupKV, hgp]
      | some y =>
        obtain ⟨y1, y2⟩ := y
        have hy : y1 = a := hg _ _ hgp
        rw [List.filterMap_cons, hgp]
        simp [lookupKV, hy, hgp]
    · cases hgp : g (a, b) with
      | none =>
        rw [List.filterMap_cons, hgp]
        rw [ih (List.nodup_cons.mp hnd).2 k]
        simp [lookupKV, hak]
      | some y =>
        obtain ⟨y1, y2⟩ := y
        have hy : y1 = a := hg _ _ hgp
        rw [List.filterMap_cons, hgp]
        simp only [lookupKV, hy, hak, if_false]
        rw [ih (List.nodup_cons.mp hnd).2 k]

theorem lookupEdit_append (x y : Patch) (k : String) :
    lookupEdit (x ++ y) k = match lookupEdit x k with
      | some e => some e
      | none => lookupEdit y k := by
  induction x with
  | nil => simp [lookupEdit]
  | cons e rest ih =>
    by_cases he : e.file = k
    · simp [lookupEdit, he]
    · simp [lookupEdit, he, ih]

theorem lookupEdit_filterMap_notin {β : Type} (g : String × β → Option FileEdit)
    (hg : ∀ fc e, g fc = some e → e.file = fc.1) :
    ∀ (l : List (String × β)) (k : String), k ∉ l.map Prod.fst →
      lookupEdit (l.filterMap g) k = none := by
  intro l
  induction l with
  | nil => intro k _; rfl
  | cons p rest ih =>
    intro k hk
    obtain ⟨a, b⟩ := p
    have hak : a ≠ k := by
      intro he
      exact hk (by simp [he])
    have hk2 : k ∉ rest.map Prod.fst := by
      intro he
      exact hk (by simp [he])
    cases hgp : g (a, b) with
    | none =>
      rw [List.filterMap_cons, hgp]
      exact ih k hk2
    | some e =>
      have he : e.file = a := hg _ _ hgp
      rw [List.filterMap_cons, hgp]
      simp only [lookupEdit, he, hak, if_false]
      exact ih k hk2

theorem lookupEdit_filterMap {β : Type} (g : String × β → Option FileEdit)
    (hg : ∀ fc e, g fc = some e → e.file = fc.1) :
    ∀ (l : List (String × β)), (l.map Prod.fst).Nodup → ∀ (k : String),
      lookupEdit (l.filterMap g) k = match lookupKV l k with
        | none => none
        | some v => g (k, v) := by
  intro l
  induction l with
  | nil => intro _ k; rfl
  | cons p rest ih =>
    intro hnd k
    obtain ⟨a, b⟩ := p
    rw [List.map_cons] at hnd
    by_cases hak : a = k
    · subst hak
      have hnotin : a ∉ rest.map Prod.fst := (List.nodup_cons.mp hnd).1
      cases hgp : g (a, b) with
      | none =>
        rw [List.filterMap_cons, hgp]
        rw [lookupEdit_filterMap_notin g hg rest a hnotin]
        simp [lookupKV, hgp]
      | some e =>
        have he : e.file = a := hg _ _ hgp
        rw [List.filterMap_cons, hgp]
        simp [lookupEdit, lookupKV, he, hgp]
    · cases hgp : g (a, b) with
      | none =>
        rw [List.filterMap_cons, hgp]
        rw [ih (List.nodup_cons.mp hnd).2 k]
        simp [lookupKV, hak]
      | some e =>
        have he : e.file = a := hg _ _ hgp
        rw [List.filterMap_cons, hgp]
        simp only [lookupEdit, he, hak, if_false]
        rw [ih (List.nodup_cons.mp hnd).2 k]
        simp [lookupKV, hak]

theorem lookupEdit_diffFiles (a b : Files)
    (hnda : (a.map Prod.fst).Nodup) (hndb : (b.map Prod.fst).Nodup) (k : String) :
    lookupEdit (diffFiles a b) k =
      match lookupKV a k with
      | some ca =>
        if lookupKV b k = some ca then none
        else some ⟨k, some ca, lookupKV b k⟩
      | none =>
        match lookupKV b k with
        | some cb => some ⟨k, none, some cb⟩
        | none => none := by
  have hg1 : ∀ (fc : String × String) (e : FileEdit),
      (if lookupKV b fc.1 = some fc.2 then none
        else some (⟨fc.1, some fc.2, lookupKV b fc.1⟩ : FileEdit)) = some e →
      e.file = fc.1 := by
    intro fc e h
    split at h
    · cases h
    · cases h
      rfl
  have hg2 : ∀ (fc : String × String) (e : FileEdit),
      (if (lookupKV a fc.1).isNone then some (⟨fc.1, none, some fc.2⟩ : FileEdit)
        else none) = some e →
      e.file = fc.1 := by
    intro fc e h
    split at h
    · cases h
      rfl
    · cases h
  unfold diffFiles
  rw [lookupEdit_append,
    lookupEdit_filterMap _ hg1 a hnda k,
    lookupEdit_filterMap _ hg2 b hndb k]
  cases hA : lookupKV a k with
  | none =>
    cases hB : lookupKV b k with
    | none => simp
    | some cb => simp [hA]
  | some ca =>
    by_cases hB : lookupKV b k = some ca
    · simp [hB, hA]
    · simp [hB, hA]

theorem editsApplicable_diffFiles (a b : Files) (hnda : (a.map Prod.fst).Nodup) :
    editsApplicable (diffFiles a b) a = true := by
  unfold editsApplicable
  rw [List.all_eq_true]
  intro e he
  rcases List.mem_append.mp he with h1 | h2
  · obtain ⟨fc, hfc, hgfc⟩ := List.mem_filterMap.mp h1
    split at hgfc
    · cases hgfc
    · cases hgfc
      obtain ⟨f0, c0⟩ := fc
      rw [lookupKV_of_mem_nodup a f0 c0 hfc hnda]
      simp
  · obtain ⟨fc, hfc, hgfc⟩ := List.mem_filterMap.mp h2
    split at hgfc
    · cases hgfc
      rename_i hcond
      rw [Option.isNone_iff_eq_none] at hcond
      rw [hcond]
      simp
    · cases hgfc

theorem diffFiles_delta (a b : Files) : ∀ e ∈ diffFiles a b, e.oldC ≠ e.newC := by
  intro e he
  rcases List.mem_append.mp he with h1 | h2
  · obtain ⟨fc, hfc, hgfc⟩ := List.mem_filterMap.mp h1
    split at hgfc
    · cases hgfc
    · cases hgfc
      rename_i hcond
      intro he2
      exact hcond he2.symm
  · obtain ⟨fc, hfc, hgfc⟩ := List.mem_filterMap.mp h2
    split at hgfc
    · cases hgfc
      simp
    · cases hgfc

theorem applyPatch_ok_of_applicable (p : Patch) (base : Files)
    (h : editsApplicable p base = true) :
    applyPatch p base = .ok ((base.filterMap (fun fc =>
        match lookupEdit p fc.1 with
        | some e =>
          match e.newC with
          | some n => some (fc.1, n)
          | none => none
        | none => some fc))
      ++ p.filterMap (fun e =>
          if e.oldC.isNone then
            match e.newC with
            | some n => some (e.file, n)
            | none => none
          else none)) := by
  unfold applyPatch
  rw [h]
  simp

theorem applyPatch_diffFiles_roundTrip (a b : Files)
    (hnda : (a.map Prod.fst).Nodup) (hndb : (b.map Prod.fst).Nodup) :
    ∃ c, applyPatch (diffFiles a b) a = .ok c ∧ ∀ f, lookupKV c f = lookupKV b f := by
  have happ := editsApplicable_diffFiles a b hnda
  refine ⟨_, applyPatch_ok_of_applicable (diffFiles a b) a happ, ?_⟩
  intro f
  rw [lookupKV_append]
  have hgA1 : ∀ (fc : String × String) (y : String × String),
      (match lookupEdit (diffFiles a b) fc.1 with
        | some e =>
          match e.newC with
          | some n => some (fc.1, n)
          | none => none
        | none => some fc) = some y → y.1 = fc.1 := by
    intro fc y h
    split at h
    · split at h
      · cases h
        rfl
      · cases h
    · cases h
      rfl
  have hA1 := lookupKV_filterMap_keyed _ hgA1 a hnda f
  rw [hA1]
  have hadds : (diffFiles a b).filterMap (fun e =>
      if e.oldC.isNone then
        match e.newC with
        | some n => some (e.file, n)
        | none => none
      else none)
    = b.filterMap (fun fc =>
        if (lookupKV a fc.1).isNone then some fc else none) := by
    unfold diffFiles
    rw [List.filterMap_append]
    have hnil : (a.filterMap (fun fc =>
        if lookupKV b fc.1 = some fc.2 then none
        else some (⟨fc.1, some fc.2, lookupKV b fc.1⟩ : FileEdit))).filterMap
          (fun e =>
            if e.oldC.isNone then
              match e.newC with
              | some n => some (e.file, n)
              | none => none
            else none) = [] := by
      rw [List.filterMap_eq_nil_iff]
      intro e he
      obtain ⟨fc, hfc, hgfc⟩ := List.mem_filterMap.mp he
      split at hgfc
      · cases hgfc
      · cases hgfc
        rfl
    rw [hnil, List.filterMap_filterMap]
    have hfuns : ∀ fc : String × String,
        ((if (lookupKV a fc.1).isNone then some (⟨fc.1, none, some fc.2⟩ : FileEdit)
          else none).bind (fun e =>
            if e.oldC.isNone then
              match e.newC with
              | some n => some (e.file, n)
              | none => none
            else none))
        = (if (lookupKV a fc.1).isNone then some fc else none) := by
      intro fc
      by_cases hc : (lookupKV a fc.1).isNone
      · simp [hc]
      · simp [hc]
    simp only [List.nil_append]
    exact List.filterMap_congr (fun fc _ => hfuns fc)
  rw [hadds]
  have hgA2 : ∀ (fc : String × String) (y : String × String),
      (if (lookupKV a fc.1).isNone then some fc else none) = some y → y.1 = fc.1 := by
    intro fc y h
    split at h
    · cases h
      rfl
    · cases h
  have hA2 := lookupKV_filterMap_keyed _ hgA2 b hndb f
  rw [hA2]
  cases hA : lookupKV a f with
  | none =>
    cases hB : lookupKV b f with
    | none => simp [hA, hB]
    | some cb => simp [hA, hB]
  | some ca =>
    by_cases hB : lookupKV b f = some ca
    · simp [hA, hB, lookupEdit_diffFiles a b hnda hndb]
    · cases hB2 : lookupKV b f with
      | some n =>
        have hne : ¬ n = ca := by
          intro h
          rw [h] at hB2
          exact hB hB2
        simp [hA, hB2, hne, lookupEdit_diffFiles a b hnda hndb]
      | none => simp [hA, hB, hB2, lookupEdit_diffFiles a b hnda hndb]

/-- C6: when the recorded patch applies, `try_apply_patch` reports success,
regenerates the patch as the diff between the pristine staged content and the
patched scratch copy (so every hunk records an actual delta over the new
upstream baseline), replaces the staged content by the patched scratch copy,
and persists the new patch reference; and reapplying the regenerated patch to
the baseline it was regenerated against reproduces the patched content file
for file. -/
theorem patch_success_regenerates_and_round_trips
    (recordedPatch : Patch) (staged patched : Files)
    (hnds : (staged.map Prod.fst).Nodup) (hndp : (patched.map Prod.fst).Nodup)
    (happly : applyPatch recordedPatch staged = .ok patched) :
    (tryApplyPatch recordedPatch staged).success = true
      ∧ (tryApplyPatch recordedPatch staged).regeneratedPatch
          = some (diffFiles staged patched)
      ∧ (tryApplyPatch recordedPatch staged).installDirFiles = patched
      ∧ (tryApplyPatch recordedPatch staged).persistedPatchFlush = true
      ∧ (∀ e ∈ diffFiles staged patched, e.oldC ≠ e.newC)
      ∧ ∃ c, applyPatch (diffFiles staged patched) staged = .ok c
          ∧ ∀ f, lookupKV c f = lookupKV patched f := by
  have ht : tryApplyPatch recordedPatch staged
      = ⟨true, patched, some (diffFiles staged patched), true, false⟩ := by
    unfold tryApplyPatch
    rw [happly]
  rw [ht]
  exact ⟨rfl, rfl, rfl, rfl, diffFiles_delta staged patched,
    applyPatch_diffFiles_roundTrip staged patched hnds hndp⟩

/-- Witness for C6 at a concrete input: a one-file component whose recorded
patch rewrites `main.nf` applies cleanly and is regenerated. -/
theorem patch_success_regenerates_and_round_trips_witness :
    (tryApplyPatch [⟨"main.nf", some "upstream", some "patched"⟩]
        [("main.nf", "upstream")]).success = true
      ∧ (tryApplyPatch [⟨"main.nf", some "upstream", some "patched"⟩]
          [("main.nf", "upstream")]).regeneratedPatch
        = some (diffFiles [("main.nf", "upstream")] [("main.nf", "patched")])
      ∧ (tryApplyPatch [⟨"main.nf", some "upstream", some "patched"⟩]
          [("main.nf", "upstream")]).installDirFiles = [("main.nf", "patched")]
      ∧ (tryApplyPatch [⟨"main.nf", some "upstream", some "patched"⟩]
          [("main.nf", "upstream")]).persistedPatchFlush = true := by
  have h := patch_success_regenerates_and_round_trips
    [⟨"main.nf", some "upstream", some "patched"⟩] [("main.nf", "upstream")]
    [("main.nf", "patched")] (by simp) (by simp) rfl
  exact ⟨h.1, h.2.1, h.2.2.1, h.2.2.2.1⟩

theorem touchFile_contains (disk : List String) (fn : String) :
    (touchFile disk fn).contains fn = true := by
  unfold touchFile
  cases h : disk.contains fn with
  | true =>
    have hmem : fn ∈ disk := by simpa using h
    simp [h, hmem]
  | false =>
    simp only [h, Bool.false_eq_true, if_false]
    simp [List.contains_cons]

theorem setupDiffLoop_spec (disk : List String) :
    ∀ (resp : List (Bool × String)) (fn : String) (d : List String) (f : String) (r : Bool),
      setupDiffLoop disk fn resp = some (d, f, r) →
      (r = true → d = disk.erase f ∧ disk.contains f = true)
        ∧ (r = false → d = disk ∧ disk.contains f = false) := by
  intro resp
  induction resp with
  | nil =>
    intro fn d f r h
    unfold setupDiffLoop at h
    split at h
    · cases h
    · rename_i hex
      cases h
      constructor
      · intro hr
        cases hr
      · intro _
        constructor
        · rfl
        · simpa using hex
  | cons p rest ih =>
    intro fn d f r h
    obtain ⟨confirmRemove, newFn⟩ := p
    unfold setupDiffLoop at h
    split at h
    · rename_i hex
      split at h
      · cases h
        exact ⟨fun _ => ⟨rfl, hex⟩, fun hr => by cases hr⟩
      · exact ih newFn d f r h
    · rename_i hex
      cases h
      constructor
      · intro hr
        cases hr
      · intro _
        constructor
        · rfl
        · simpa using hex

/-- C10: after `setup_diff_file` returns, the diff output path exists as a
file, and an already-existing file at the final path is never reused
silently: either the user explicitly confirmed its removal — the file was
deleted and recreated empty by `touch` — or the final path (reached through
re-prompting) did not previously exist on disk. -/
theorem setup_diff_file_exists_and_not_silently_reused
    (disk : List String) (fn : String) (resp : List (Bool × String))
    (disk2 : List String) (fn2 : String) (removed : Bool)
    (h : setupDiffFile disk fn resp = some (disk2, fn2, removed)) :
    disk2.contains fn2 = true
      ∧ (removed = true →
          disk2 = touchFile (disk.erase fn2) fn2 ∧ disk.contains fn2 = true)
      ∧ (removed = false → disk.contains fn2 = false) := by
  unfold setupDiffFile at h
  split at h
  · cases h
  · rename_i dfr hl
    obtain ⟨d, f, r⟩ := dfr
    cases h
    obtain ⟨h1, h2⟩ := setupDiffLoop_spec disk resp fn d f r hl
    refine ⟨touchFile_contains d f, ?_, ?_⟩
    · intro hr
      obtain ⟨hd, hcont⟩ := h1 hr
      exact ⟨by rw [hd], hcont⟩
    · intro hr
      exact (h2 hr).2

/-- Witness for C10 at a concrete input: `changes.diff` exists, removal is
declined, the user enters `changes2.diff`, which is fresh and then touched. -/
theorem setup_diff_file_exists_and_not_silently_reused_witness :
    (["changes2.diff", "changes.diff"] : List String).contains "changes2.diff" = true
      ∧ (false = true →
          (["changes2.diff", "changes.diff"] : List String)
              = touchFile ((["changes.diff"] : List String).erase "changes2.diff")
                "changes2.diff"
            ∧ (["changes.diff"] : List String).contains "changes2.diff" = true)
      ∧ (false = false →
          (["changes.diff"] : List String).contains "changes2.diff" = false) :=
  setup_diff_file_exists_and_not_silently_reused ["changes.diff"] "changes.diff"
    [(false, "changes2.diff")] ["changes2.diff", "changes.diff"] "changes2.diff" false rfl

/-- C9: on the single-component path, a component absent from the registry
catalog raises a `LookupError`; but for a component "not installed in the
pipeline" in the sense that no component at all is installed from the repo,
the source computes the `choices` comprehension over `None` before its
repo-presence check, so Python raises `TypeError` — which is not a
`LookupError` — instead of the documented `LookupError`. This theorem
evaluates the embedding at that failing input. -/
theorem missing_repo_raises_type_error :
    getSingleComponentInfo "https://github.com/nf-core/modules.git" [] (some "fastqc") "fastqc"
        [] [] none "master" "master" false none = .error .typeError
      ∧ PyErr.isLookupError .typeError = false := ⟨rfl, rfl⟩

/-- C8: on the single-component path, a `.nf-core.yml` update entry for the
component that is boolean `False` raises a fatal `UserWarning` (explicitly
disabled), and an entry that is neither a boolean nor a string raises a fatal
wrong-type `UserWarning`; in both cases the call errors, so no plan entry is
produced. -/
theorem single_component_false_or_bad_entry_fatal
    (repoUrl component promptChoice currentBranch newBranch : String)
    (dirCfg : List (String × CfgEntry)) (entry : CfgEntry)
    (cliSha : Option String) (switchConfirm : Bool) (patchFn : Option String)
    (hentry : lookupKV dirCfg component = some entry) :
    (entry = .false_ →
      getSingleComponentInfo repoUrl [(repoUrl, [("nf-core", component)])] (some component)
          promptChoice [component] [(repoUrl, .dict [("nf-core", .dict dirCfg)])]
          cliSha currentBranch newBranch switchConfirm patchFn
        = .error (.userWarning "update entry in .nf-core.yml is set to False"))
    ∧ ((∀ s, entry ≠ .sha s) → entry ≠ .true_ → entry ≠ .false_ →
      getSingleComponentInfo repoUrl [(repoUrl, [("nf-core", component)])] (some component)
          promptChoice [component] [(repoUrl, .dict [("nf-core", .dict dirCfg)])]
          cliSha currentBranch newBranch switchConfirm patchFn
        = .error (.userWarning "update entry in .nf-core.yml is of wrong type")) := by
  constructor
  · intro h
    subst h
    simp [getSingleComponentInfo, singleShaFromConfig, cfgGetD, cfgMember, cfgGet, cfgIndex,
      dictIndex, lookupKV, containsKey, hentry]
  · intro hsha htrue hfalse
    cases entry with
    | true_ => exact absurd rfl htrue
    | false_ => exact absurd rfl hfalse
    | sha s => exact absurd rfl (hsha s)
    | dict m =>
        simp [getSingleComponentInfo, singleShaFromConfig, cfgGetD, cfgMember, cfgGet, cfgIndex,
          dictIndex, lookupKV, containsKey, hentry]
    | other =>
        simp [getSingleComponentInfo, singleShaFromConfig, cfgGetD, cfgMember, cfgGet, cfgIndex,
          dictIndex, lookupKV, containsKey, hentry]

/-- Witness for C8 at a concrete input: entry `False` for `fastqc` is fatal. -/
theorem single_component_false_or_bad_entry_fatal_witness :
    getSingleComponentInfo "https://github.com/nf-core/modules.git"
        [("https://github.com/nf-core/modules.git", [("nf-core", "fastqc")])] (some "fastqc")
        "fastqc" ["fastqc"]
        [("https://github.com/nf-core/modules.git",
          .dict [("nf-core", .dict [("fastqc", .false_)])])]
        none "master" "master" false none
      = .error (.userWarning "update entry in .nf-core.yml is set to False") :=
  (single_component_false_or_bad_entry_fatal "https://github.com/nf-core/modules.git" "fastqc"
      "fastqc" "master" "master" [("fastqc", .false_)] .false_ none false none rfl).1 rfl

/-- C2: on the single-component path the resolved target version follows the
precedence config-pin over CLI sha (with the precedence-override warning
logged exactly when a CLI sha is present) over interactive prompt over
registry latest: a string config entry yields that sha whatever the CLI sha;
an absent entry keeps the CLI sha; `resolveVersion` then prefers an explicit
sha, else the prompt answer, else the registry latest version. -/
theorem single_component_version_precedence
    (repoUrl component promptChoice currentBranch newBranch pin : String)
    (dirCfg : List (String × CfgEntry)) (cliSha : Option String)
    (switchConfirm : Bool) (patchFn : Option String) :
    (lookupKV dirCfg component = some (.sha pin) →
      getSingleComponentInfo repoUrl [(repoUrl, [("nf-core", component)])] (some component)
          promptChoice [component] [(repoUrl, .dict [("nf-core", .dict dirCfg)])]
          cliSha currentBranch newBranch switchConfirm patchFn
        = .ok ⟨component, some pin, patchFn,
            if currentBranch ≠ newBranch ∧ switchConfirm then currentBranch else newBranch,
            cliSha.isSome⟩)
    ∧ (lookupKV dirCfg component = none →
      getSingleComponentInfo repoUrl [(repoUrl, [("nf-core", component)])] (some component)
          promptChoice [component] [(repoUrl, .dict [("nf-core", .dict dirCfg)])]
          cliSha currentBranch newBranch switchConfirm patchFn
        = .ok ⟨component, cliSha, patchFn,
            if currentBranch ≠ newBranch ∧ switchConfirm then currentBranch else newBranch,
            false⟩)
    ∧ (∀ (s promptVersion latest : String) (p : Bool),
        resolveVersion (some s) p promptVersion latest = s)
    ∧ (∀ (promptVersion latest : String),
        resolveVersion none true promptVersion latest = promptVersion
          ∧ resolveVersion none false promptVersion latest = latest) := by
  refine ⟨?_, ?_, ?_, ?_⟩
  · intro h
    simp [getSingleComponentInfo, singleShaFromConfig, cfgGetD, cfgMember, cfgGet, cfgIndex,
      dictIndex, lookupKV, containsKey, h]
  · intro h
    simp [getSingleComponentInfo, singleShaFromConfig, cfgGetD, cfgMember, cfgGet, cfgIndex,
      dictIndex, lookupKV, containsKey, h]
  · intro s promptVersion latest p
    rfl
  · intro promptVersion latest
    exact ⟨rfl, rfl⟩

/-- Witness for C2 at the spec scenario: CLI sha `abc123` together with a
config pin `def456` for the same component resolves to `def456` with the
override warning logged. -/
theorem single_component_version_precedence_witness :
    getSingleComponentInfo "https://github.com/nf-core/modules.git"
        [("https://github.com/nf-core/modules.git", [("nf-core", "fastqc")])] (some "fastqc")
        "fastqc" ["fastqc"]
        [("https://github.com/nf-core/modules.git",
          .dict [("nf-core", .dict [("fastqc", .sha "def456")])])]
        (some "abc123") "master" "master" false none
      = .ok ⟨"fastqc", some "def456", none, "master", true⟩ := by
  have h := (single_component_version_precedence "https://github.com/nf-core/modules.git"
      "fastqc" "fastqc" "master" "master" "def456" [("fastqc", .sha "def456")]
      (some "abc123") false none).1 rfl
  simpa using h

end NfCoreUpdate
